import Mathlib

/-
Verification of the TraDora market-data and technical-analysis core.

The TypeScript source is embedded shallowly:
- JS numbers become ℚ (exact rational arithmetic); `Math.sqrt` becomes
  `Real.sqrt`, so values that pass through a square root live in ℝ.
- Decimal string fields of database records stay `String`; a field that may
  be absent (`undefined`/`null`) becomes an `Option`.
- Network fetches and the storage lookup are oracles passed as arguments:
  an adapter's outcome is an `Except` value, the storage's latest-record
  lookup is a function `String → Option InsertMarketData`.
- `Math.random()*2-1` in the signal scorer becomes an explicit rational
  argument `volatilityFactor`.
-/

namespace TraDora

/- ===== Data model (shared/schema.ts and service-local interfaces) ===== -/

/-- Trade direction of the supertrend indicator: 'LONG' | 'SHORT'. -/
inductive TrendDirection where
  | LONG
  | SHORT
deriving DecidableEq

/-- Signal category 'BUY' | 'SELL' | 'HOLD'. -/
inductive TradeSignal where
  | BUY
  | SELL
  | HOLD
deriving DecidableEq

/-- Result record of calculateMACD. -/
structure MACDData where
  macd : ℚ
  signal : ℚ
  histogram : ℚ
deriving DecidableEq

/-- Bollinger band triple; the long branch adds a standard deviation
(a square root), so the fields live in ℝ. -/
structure BollingerBands where
  upper : ℝ
  middle : ℝ
  lower : ℝ

/-- Supertrend result record. -/
structure SupertrendData where
  value : ℚ
  direction : TrendDirection
deriving DecidableEq

/-- The TechnicalData interface of technicalAnalysisService.ts. -/
structure TechnicalData where
  rsi : ℚ
  macd : MACDData
  vwap : ℚ
  ema20 : ℚ
  ema50 : ℚ
  bollinger : BollingerBands
  supertrend : SupertrendData

/-- A record of the market_data table as the technical-analysis service reads
it: numeric fields already parsed to ℚ, timestamp as epoch milliseconds.
The service treats every record as carrying a concrete timestamp. -/
structure MarketData where
  symbol : String
  price : ℚ
  volume : ℚ
  high : ℚ
  low : ℚ
  timestamp : ℕ
deriving DecidableEq

namespace TechnicalAnalysisService

/- ===== Indicator engine ===== -/

/-- The list of successive changes prices[i] - prices[i-1]. -/
def priceChanges (prices : List ℚ) : List ℚ :=
  List.zipWith (fun a b => a - b) prices.tail prices

/-- One step of Wilder smoothing over a change, on the pair
(avgGain, avgLoss); period enters as the rational it is cast to in JS. -/
def rsiStep (period : ℕ) (gl : ℚ × ℚ) (change : ℚ) : ℚ × ℚ :=
  if 0 < change then
    ((gl.1 * ((period : ℚ) - 1) + change) / period, gl.2 * ((period : ℚ) - 1) / period)
  else
    (gl.1 * ((period : ℚ) - 1) / period, (gl.2 * ((period : ℚ) - 1) - change) / period)

/-- The smoothed (avgGain, avgLoss) pair after the bootstrap over the first
`period` changes and Wilder smoothing over the remaining changes. -/
def rsiAverages (prices : List ℚ) (period : ℕ) : ℚ × ℚ :=
  let diffs := priceChanges prices
  let gains := (diffs.take period).foldl (fun a c => if 0 < c then a + c else a) 0
  let losses := (diffs.take period).foldl (fun a c => if 0 < c then a else a - c) 0
  (diffs.drop period).foldl (rsiStep period) (gains / period, losses / period)

/-- calculateRSI of technicalAnalysisService.ts (the source's default
period is 14; callers here always pass it explicitly). -/
def calculateRSI (prices : List ℚ) (period : ℕ) : ℚ :=
  if prices.length < period + 1 then 50
  else
    let gl := rsiAverages prices period
    if gl.2 = 0 then 100
    else 100 - 100 / (1 + gl.1 / gl.2)

/-- calculateEMA of technicalAnalysisService.ts. -/
def calculateEMA (prices : List ℚ) (period : ℕ) : ℚ :=
  if prices.length = 0 then 0
  else if prices.length < period then (prices.getLast?).getD 0
  else
    match prices with
    | [] => 0
    | p :: rest => rest.foldl (fun e q => (q - e) * (2 / ((period : ℚ) + 1)) + e) p

/-- calculateMACD of technicalAnalysisService.ts: the signal line is the
simplified `macd * 0.9`, the histogram is `macd - signal`. -/
def calculateMACD (prices : List ℚ) (fastPeriod slowPeriod signalPeriod : ℕ) : MACDData :=
  let emaFast := calculateEMA prices fastPeriod
  let emaSlow := calculateEMA prices slowPeriod
  let macd := emaFast - emaSlow
  let signal := macd * (9 / 10)
  let histogram := macd - signal
  ⟨macd, signal, histogram⟩

/-- calculateVWAP of technicalAnalysisService.ts. -/
def calculateVWAP (prices volumes : List ℚ) : ℚ :=
  if prices.length ≠ volumes.length ∨ prices.length = 0 then 0
  else
    let totalPriceVolume := (List.zipWith (fun p v => p * v) prices volumes).sum
    let totalVolume := volumes.sum
    if 0 < totalVolume then totalPriceVolume / totalVolume
    else (prices.getLast?).getD 0

/-- The mean squared deviation from the mean (the value whose square root the
source's calculateStandardDeviation returns). -/
def calculateStandardDeviationSq (values : List ℚ) : ℚ :=
  if values.length = 0 then 0
  else
    let mean := values.sum / values.length
    ((values.map (fun v => (v - mean) ^ 2)).sum) / values.length

/-- calculateStandardDeviation of technicalAnalysisService.ts:
the square root of the mean squared deviation. -/
noncomputable def calculateStandardDeviation (values : List ℚ) : ℝ :=
  Real.sqrt (calculateStandardDeviationSq values)

/-- calculateBollingerBands of technicalAnalysisService.ts. With fewer than
`period` samples the band is the last price ±2%; otherwise SMA ± multiplier
times the population standard deviation of the last `period` samples. -/
noncomputable def calculateBollingerBands (prices : List ℚ) (period : ℕ) (multiplier : ℚ) :
    BollingerBands :=
  if prices.length < period then
    let lastPrice := (prices.getLast?).getD 0
    ⟨((lastPrice * (102 / 100) : ℚ) : ℝ), ((lastPrice : ℚ) : ℝ),
      ((lastPrice * (98 / 100) : ℚ) : ℝ)⟩
  else
    let window := prices.drop (prices.length - period)
    let sma := window.sum / (period : ℚ)
    let variance := ((window.map (fun p => (p - sma) ^ 2)).sum) / (period : ℚ)
    let stdDev := Real.sqrt (variance : ℚ)
    ⟨(sma : ℝ) + stdDev * (multiplier : ℚ), (sma : ℝ), (sma : ℝ) - stdDev * (multiplier : ℚ)⟩

/-- True range at index i of the supertrend loop, reading the high/low at i
and the close at i-1 (indices are in range for the service's equal-length
inputs; out of range reads default to 0). -/
def trueRange (highs lows closes : List ℚ) (i : ℕ) : ℚ :=
  let h := (highs.get? i).getD 0
  let l := (lows.get? i).getD 0
  let c := (closes.get? (i - 1)).getD 0
  max (h - l) (max |h - c| |l - c|)

/-- calculateSupertrend of technicalAnalysisService.ts (simplified ATR:
true ranges summed for i in [1, min(period, closes.length)) and divided by
min(period, closes.length - 1)). -/
def calculateSupertrend (highs lows closes : List ℚ) (period : ℕ) (multiplier : ℚ) :
    SupertrendData :=
  if closes.length < period then
    ⟨(closes.getLast?).getD 0, TrendDirection.LONG⟩
  else
    let m := min period closes.length
    let atrSum := ((List.range m).drop 1).foldl (fun a i => a + trueRange highs lows closes i) 0
    let atr := atrSum / (min period (closes.length - 1) : ℕ)
    let currentClose := (closes.getLast?).getD 0
    let hl2 := (((highs.getLast?).getD 0) + ((lows.getLast?).getD 0)) / 2
    let upperBand := hl2 + multiplier * atr
    let lowerBand := hl2 - multiplier * atr
    let direction := if currentClose ≤ lowerBand then TrendDirection.SHORT else TrendDirection.LONG
    let value := if direction = TrendDirection.LONG then lowerBand else upperBand
    ⟨value, direction⟩

/- ===== Data sufficiency gate and analyzeTechnicals ===== -/

/-- The symbols hardcoded in the analyzeTechnicals loop. -/
def marketSymbols : List String := ["NIFTY", "BANKNIFTY", "SENSEX"]

/-- The valid prices of a symbol's series: strictly positive (the source also
filters NaN, which ℚ cannot represent; a NaN never satisfies `p > 0` in JS,
so the filter coincides). -/
def validPricesOf (symbolData : List MarketData) : List ℚ :=
  (symbolData.map (fun d => d.price)).filter (fun p => decide (0 < p))

/-- Math.min over a spread list (the gate only applies it to non-empty lists). -/
def listMin : List ℚ → ℚ
  | [] => 0
  | p :: ps => ps.foldl min p

/-- Math.max over a spread list (the gate only applies it to non-empty lists). -/
def listMax : List ℚ → ℚ
  | [] => 0
  | p :: ps => ps.foldl max p

/-- The price range max − min over the valid prices. -/
def priceRangeOf (symbolData : List MarketData) : ℚ :=
  listMax (validPricesOf symbolData) - listMin (validPricesOf symbolData)

/-- The number of distinct timestamps of a series (the source keeps the first
occurrence of each timestamp with an indexOf filter; only the count of
distinct values matters and dedup has the same count). -/
def distinctTimestampCount (symbolData : List MarketData) : ℕ :=
  ((symbolData.map (fun d => d.timestamp)).dedup).length

/-- The data sufficiency gate of analyzeTechnicals, exactly the sequence of
early `continue` conditions of the source. The source compares
`calculateStandardDeviation validPrices < 0.001` in ℝ; since `Real.sqrt` is
monotone and 0.001 > 0 this is equivalent to comparing the mean squared
deviation with 0.001², which keeps the gate decidable; the equivalence is
proved in `calculateStandardDeviation_lt_iff` below. -/
def passesGate (symbolData : List MarketData) : Bool :=
  if symbolData.length < 50 then false
  else if (validPricesOf symbolData).length < 50 then false
  else if priceRangeOf symbolData < 1 ∨
      calculateStandardDeviationSq (validPricesOf symbolData) < 1 / 1000000 then false
  else if distinctTimestampCount symbolData < 10 then false
  else true

/-- The indicator set analyzeTechnicals computes for one symbol's series
(the source's per-symbol result record, with the source's default periods
written out). -/
noncomputable def computeIndicators (symbolData : List MarketData) : TechnicalData :=
  let prices := symbolData.map (fun d => d.price)
  let volumes := symbolData.map (fun d => d.volume)
  let highs := symbolData.map (fun d => d.high)
  let lows := symbolData.map (fun d => d.low)
  { rsi := calculateRSI prices 14
    macd := calculateMACD prices 12 26 9
    vwap := calculateVWAP prices volumes
    ema20 := calculateEMA prices 20
    ema50 := calculateEMA prices 50
    bollinger := calculateBollingerBands prices 20 2
    supertrend := calculateSupertrend highs lows prices 10 3 }

/-- analyzeTechnicals of technicalAnalysisService.ts: for each hardcoded
symbol, filter its records, apply the sufficiency gate, and compute the
indicator set only when the gate passes. (The source's early return on an
empty input is subsumed: every gate fails on an empty series.) -/
noncomputable def analyzeTechnicals (marketData : List MarketData) :
    List (String × TechnicalData) :=
  marketSymbols.filterMap fun symbol =>
    let symbolData := marketData.filter (fun d => decide (d.symbol = symbol))
    if passesGate symbolData then some (symbol, computeIndicators symbolData) else none

/- ===== Signal scorer ===== -/

/-- Points and reason labels contributed by the RSI branch of
generateSignalFromTechnicals. -/
def rsiBlock (rsi : ℚ) : ℤ × List String :=
  if rsi < 35 then (3, ["RSI oversold"])
  else if rsi < 45 then (1, ["RSI below midline"])
  else if rsi > 65 then (-3, ["RSI overbought"])
  else if rsi > 55 then (-1, ["RSI above midline"])
  else (0, [])

/-- Points and reason labels contributed by the MACD branch. -/
def macdBlock (m : MACDData) : ℤ × List String :=
  if m.macd > m.signal ∧ m.histogram > 0 then (2, ["MACD bullish crossover"])
  else if m.macd < m.signal ∧ m.histogram < 0 then (-2, ["MACD bearish crossover"])
  else if m.macd > m.signal then (1, ["MACD above signal"])
  else (-1, ["MACD below signal"])

/-- Points and reason labels contributed by the EMA alignment branch. -/
def emaBlock (ema20 ema50 : ℚ) : ℤ × List String :=
  if ema20 > ema50 then (2, ["EMA bullish alignment"]) else (-2, ["EMA bearish alignment"])

/-- Points and reason labels contributed by the supertrend branch. -/
def supertrendBlock (direction : TrendDirection) : ℤ × List String :=
  if direction = TrendDirection.LONG then (1, ["Supertrend bullish"])
  else (-1, ["Supertrend bearish"])

/-- Points and reason labels contributed by the volatility branch; the
argument embeds the value of `Math.random() * 2 - 1` drawn in the source. -/
def momentumBlock (volatilityFactor : ℚ) : ℤ × List String :=
  if |volatilityFactor| > 1 / 2 then
    if volatilityFactor > 0 then (1, ["market momentum positive"])
    else (-1, ["market momentum negative"])
  else (0, [])

/-- The score accumulated by generateSignalFromTechnicals: the sum of the
five blocks' contributions, in source order. -/
def totalScore (technicalData : TechnicalData) (volatilityFactor : ℚ) : ℤ :=
  (rsiBlock technicalData.rsi).1 + (macdBlock technicalData.macd).1 +
    (emaBlock technicalData.ema20 technicalData.ema50).1 +
    (supertrendBlock technicalData.supertrend.direction).1 +
    (momentumBlock volatilityFactor).1

/-- Result record of generateSignalFromTechnicals. -/
structure SignalResult where
  signal : TradeSignal
  strength : ℤ
  reasoning : String
deriving DecidableEq

/-- generateSignalFromTechnicals of technicalAnalysisService.ts; the
volatility factor (drawn with Math.random in the source) enters as an
argument. The symbol parameter is unused in the source as well. -/
def generateSignalFromTechnicals (_symbol : String) (technicalData : TechnicalData)
    (volatilityFactor : ℚ) : SignalResult :=
  let score := totalScore technicalData volatilityFactor
  let reasons :=
    (rsiBlock technicalData.rsi).2 ++ (macdBlock technicalData.macd).2 ++
      (emaBlock technicalData.ema20 technicalData.ema50).2 ++
      (supertrendBlock technicalData.supertrend.direction).2 ++
      (momentumBlock volatilityFactor).2
  let signal : TradeSignal :=
    if score > 1 then TradeSignal.BUY
    else if score < -1 then TradeSignal.SELL
    else TradeSignal.HOLD
  let strength := min 100 (max 10 (|score| * 15 + 20))
  ⟨signal, strength, String.intercalate ", " reasons⟩

end TechnicalAnalysisService

/- ===== Multi-timeframe consensus (TechnicalIndicatorsTable.tsx) ===== -/

/-- Result record of getOverallDecision. -/
structure OverallDecision where
  signal : TradeSignal
  strength : ℤ
  countBuy : ℕ
  countSell : ℕ
  countHold : ℕ
deriving DecidableEq

/-- getOverallDecision of TechnicalIndicatorsTable.tsx: the input is the
per-timeframe signal lookup (none embeds a missing timeframe entry, which the
source's `.filter(Boolean)` drops). `round` is Mathlib's round-half-up,
which agrees with Math.round on the non-negative ratios used here. -/
def getOverallDecision (timeframeSignals : List (Option TradeSignal)) : OverallDecision :=
  let signals := timeframeSignals.filterMap id
  let buyCount := (signals.filter (fun s => decide (s = TradeSignal.BUY))).length
  let sellCount := (signals.filter (fun s => decide (s = TradeSignal.SELL))).length
  let holdCount := (signals.filter (fun s => decide (s = TradeSignal.HOLD))).length
  let totalSignals := signals.length
  if totalSignals = 0 then ⟨TradeSignal.HOLD, 0, 0, 0, 0⟩
  else if buyCount > sellCount ∧ buyCount > holdCount then
    ⟨TradeSignal.BUY, round ((buyCount : ℚ) / totalSignals * 100), buyCount, sellCount, holdCount⟩
  else if sellCount > buyCount ∧ sellCount > holdCount then
    ⟨TradeSignal.SELL, round ((sellCount : ℚ) / totalSignals * 100), buyCount, sellCount, holdCount⟩
  else
    ⟨TradeSignal.HOLD, round ((holdCount : ℚ) / totalSignals * 100), buyCount, sellCount, holdCount⟩

/- ===== Market data service (failover fetcher and series enricher) ===== -/

namespace MarketDataService

/-- An InsertMarketData record (shared/schema.ts, id omitted): decimal fields
stay the strings they are in the source; `open` is optional since the schema
has no open column and the enricher adds it. -/
structure InsertMarketData where
  symbol : String
  price : String
  change : String
  changePercent : String
  high : String
  low : String
  volume : ℤ
  «open» : Option String
  timestamp : Option ℕ
deriving DecidableEq

/-- getPreviousClosePrice: reads the latest stored record through the
injected storage lookup and returns its price; `latestData?.price || null`
maps an absent record and an empty (falsy) price to null, and a storage
error is also swallowed into null (embedded as a `none` from the oracle). -/
def getPreviousClosePrice (getLatestMarketData : String → Option InsertMarketData)
    (symbol : String) : Option String :=
  match getLatestMarketData symbol with
  | none => none
  | some latestData => if latestData.price = "" then none else some latestData.price

/-- The enricher's test for a missing or invalid open price:
`!openPrice || openPrice === '0' || openPrice === 'null'` (the falsy strings
are exactly the empty string). -/
def unusableOpen : Option String → Bool
  | none => true
  | some s => s == "" || s == "0" || s == "null"

/-- enrichMarketDataWithOpen of the market data service: every record is
re-pushed with its open price replaced by the previous stored close (or its
own current price) when the open is missing or invalid. -/
def enrichMarketDataWithOpen (getLatestMarketData : String → Option InsertMarketData)
    (marketData : List InsertMarketData) : List InsertMarketData :=
  marketData.map fun data =>
    let openPrice :=
      if unusableOpen data.«open» then
        match getPreviousClosePrice getLatestMarketData data.symbol with
        | some previousClose => some previousClose
        | none => some data.price
      else data.«open»
    { data with «open» := openPrice }

/-- One entry of the ordered dataSources list of getMarketData; the fetch
outcome (a thrown error or a record list) is the oracle for that source's
network call. -/
structure DataSource where
  name : String
  enabled : Bool
  fetch : Except String (List InsertMarketData)

/-- The failover loop of getMarketData, also returning the names it logs
with "Trying {name} for market data..." — the sources actually invoked.
A disabled source is skipped silently; a thrown or empty fetch advances to
the next source; the first non-empty fetch is enriched and returned. -/
def getMarketDataRun (getLatestMarketData : String → Option InsertMarketData) :
    List DataSource → List String × List InsertMarketData
  | [] => ([], [])
  | source :: rest =>
    if source.enabled then
      match source.fetch with
      | Except.ok rawData =>
        if rawData.length > 0 then
          ([source.name], enrichMarketDataWithOpen getLatestMarketData rawData)
        else
          let r := getMarketDataRun getLatestMarketData rest
          (source.name :: r.1, r.2)
      | Except.error _ =>
        let r := getMarketDataRun getLatestMarketData rest
        (source.name :: r.1, r.2)
    else getMarketDataRun getLatestMarketData rest

/-- getMarketData of the market data service: the record list produced by
the failover loop. -/
def getMarketData (getLatestMarketData : String → Option InsertMarketData)
    (sources : List DataSource) : List InsertMarketData :=
  (getMarketDataRun getLatestMarketData sources).2

/-- The names logged ("Trying ...") by one getMarketData call: exactly the
sources that are invoked. -/
def getMarketDataTried (getLatestMarketData : String → Option InsertMarketData)
    (sources : List DataSource) : List String :=
  (getMarketDataRun getLatestMarketData sources).1

/-- Characterization of the winning source: enabled, and its fetch succeeds
with at least one record. -/
def isWinningSource (s : DataSource) : Bool :=
  s.enabled &&
    match s.fetch with
    | Except.ok rawData => rawData.length > 0
    | Except.error _ => false

end MarketDataService

/- ===== Theorems ===== -/

open TechnicalAnalysisService MarketDataService

/-- C10: calculateMACD yields signal = macd × 0.9 and histogram = macd × 0.1,
hence histogram = macd − signal and the comparisons macd > signal,
histogram > 0 and macd > 0 coincide; on such a value the scorer's MACD block
contributes +2 when macd > 0, −1 when macd = 0 and −2 when macd < 0, so the
+1 "MACD above signal" branch can never fire. -/
theorem C10_macd_relations (prices : List ℚ) (fastPeriod slowPeriod signalPeriod : ℕ) :
    (calculateMACD prices fastPeriod slowPeriod signalPeriod).signal =
        (calculateMACD prices fastPeriod slowPeriod signalPeriod).macd * (9 / 10) ∧
    (calculateMACD prices fastPeriod slowPeriod signalPeriod).histogram =
        (calculateMACD prices fastPeriod slowPeriod signalPeriod).macd * (1 / 10) ∧
    (calculateMACD prices fastPeriod slowPeriod signalPeriod).histogram =
        (calculateMACD prices fastPeriod slowPeriod signalPeriod).macd -
          (calculateMACD prices fastPeriod slowPeriod signalPeriod).signal ∧
    ((calculateMACD prices fastPeriod slowPeriod signalPeriod).macd >
        (calculateMACD prices fastPeriod slowPeriod signalPeriod).signal ↔
      (calculateMACD prices fastPeriod slowPeriod signalPeriod).histogram > 0) ∧
    ((calculateMACD prices fastPeriod slowPeriod signalPeriod).macd >
        (calculateMACD prices fastPeriod slowPeriod signalPeriod).signal ↔
      (calculateMACD prices fastPeriod slowPeriod signalPeriod).macd > 0) ∧
    macdBlock (calculateMACD prices fastPeriod slowPeriod signalPeriod) =
      (if (calculateMACD prices fastPeriod slowPeriod signalPeriod).macd > 0 then
        (2, ["MACD bullish crossover"])
       else if (calculateMACD prices fastPeriod slowPeriod signalPeriod).macd = 0 then
        (-1, ["MACD below signal"])
       else (-2, ["MACD bearish crossover"])) := by
  set m := calculateMACD prices fastPeriod slowPeriod signalPeriod with hmdef
  have hs : m.signal = m.macd * (9 / 10) := rfl
  have hh : m.histogram = m.macd - m.macd * (9 / 10) := rfl
  refine ⟨hs, by rw [hh]; ring, by rw [hh, hs], ?_, ?_, ?_⟩
  · rw [hh, hs]
    constructor <;> intro h <;> linarith
  · rw [hs]
    constructor <;> intro h <;> nlinarith
  · rcases lt_trichotomy m.macd 0 with hc | hc | hc
    · have h1 : ¬ (m.macd > m.signal ∧ m.histogram > 0) := by
        rintro ⟨ha, _⟩
        rw [hs] at ha
        nlinarith
      have h2 : m.macd < m.signal ∧ m.histogram < 0 := by
        rw [hs, hh]
        constructor <;> nlinarith
      rw [macdBlock, if_neg h1, if_pos h2, if_neg (asymm hc), if_neg (ne_of_lt hc)]
    · have h1 : ¬ (m.macd > m.signal ∧ m.histogram > 0) := by
        rintro ⟨ha, _⟩
        rw [hs, hc] at ha
        norm_num at ha
      have h2 : ¬ (m.macd < m.signal ∧ m.histogram < 0) := by
        rintro ⟨ha, _⟩
        rw [hs, hc] at ha
        norm_num at ha
      have h3 : ¬ m.macd > m.signal := by
        rw [hs, hc]
        norm_num
      rw [macdBlock, if_neg h1, if_neg h2, if_neg h3, if_neg (by rw [hc]; norm_num), if_pos hc]
    · have h1 : m.macd > m.signal ∧ m.histogram > 0 := by
        rw [hs, hh]
        constructor <;> nlinarith
      rw [macdBlock, if_pos h1, if_pos hc]

/-- C3: the scorer returns BUY exactly when the accumulated score exceeds 1,
SELL exactly when it is below −1, HOLD otherwise, and the strength is always
min(100, max(10, |score|·15 + 20)), where the score is the sum of the
triggered rule contributions. -/
theorem C3_signal_thresholds (symbol : String) (technicalData : TechnicalData)
    (volatilityFactor : ℚ) :
    let r := generateSignalFromTechnicals symbol technicalData volatilityFactor
    let score := totalScore technicalData volatilityFactor
    (r.signal = TradeSignal.BUY ↔ score > 1) ∧
    (r.signal = TradeSignal.SELL ↔ score < -1) ∧
    (r.signal = TradeSignal.HOLD ↔ -1 ≤ score ∧ score ≤ 1) ∧
    r.strength = min 100 (max 10 (|score| * 15 + 20)) := by
  intro r score
  have hsig : r.signal =
      (if score > 1 then TradeSignal.BUY
       else if score < -1 then TradeSignal.SELL
       else TradeSignal.HOLD) := rfl
  have hstr : r.strength = min 100 (max 10 (|score| * 15 + 20)) := rfl
  refine ⟨?_, ?_, ?_, hstr⟩ <;> rw [hsig] <;> split_ifs with h1 h2 <;> simp_all <;> omega

/-- A concrete indicator set used to exercise the scorer: the deterministic
blocks contribute 0 + 2 − 2 + 1 = 1 points. -/
noncomputable def exampleIndicators : TechnicalData :=
  { rsi := 50
    macd := ⟨1, 9 / 10, 1 / 10⟩
    vwap := 0
    ema20 := 0
    ema50 := 1
    bollinger := ⟨0, 0, 0⟩
    supertrend := ⟨0, TrendDirection.LONG⟩ }

set_option maxRecDepth 10000 in
unseal Rat.add Rat.mul Rat.inv Rat.sub in
/-- C9 counterexample: two invocations of the scorer on the same indicator
set with different volatility draws (0 and 1, both reachable values of
Math.random()·2−1) return different results — the draw of 1 adds the random
momentum point, turning a HOLD of strength 35 into a BUY of strength 50. -/
theorem C9_counterexample :
    generateSignalFromTechnicals "NIFTY" exampleIndicators 0 ≠
      generateSignalFromTechnicals "NIFTY" exampleIndicators 1 := by
  decide

/-- C9 amended: the scorer is deterministic only given the volatility draw;
in particular whenever both draws stay in [−1/2, 1/2] the random momentum
branch contributes nothing and the two results agree. -/
theorem C9_determinism (symbol : String) (technicalData : TechnicalData) (v₁ v₂ : ℚ)
    (h₁ : |v₁| ≤ 1 / 2) (h₂ : |v₂| ≤ 1 / 2) :
    generateSignalFromTechnicals symbol technicalData v₁ =
      generateSignalFromTechnicals symbol technicalData v₂ := by
  have hm : ∀ v : ℚ, |v| ≤ 1 / 2 → momentumBlock v = (0, []) := by
    intro v hv
    rw [momentumBlock, if_neg (not_lt.mpr hv)]
  simp only [generateSignalFromTechnicals, totalScore, hm v₁ h₁, hm v₂ h₂]

/-- C9 witness: the amended determinism at a concrete indicator set and the
concrete draws 0 and 1/4. -/
theorem C9_determinism_witness :
    generateSignalFromTechnicals "NIFTY" exampleIndicators 0 =
      generateSignalFromTechnicals "NIFTY" exampleIndicators (1 / 4) :=
  C9_determinism "NIFTY" exampleIndicators 0 (1 / 4) (by norm_num [abs_le])
    (by norm_num [abs_le])

unseal Rat.add Rat.mul Rat.inv Rat.sub in
/-- C7 counterexample: for the two-element series [1, 2] and period 2 the
claim's bound period ≥ length holds, yet calculateEMA runs the smoothing
loop and returns 5/3, not the last element 2. -/
theorem C7_counterexample :
    ([(1 : ℚ), 2].length ≤ 2) ∧
    ([(1 : ℚ), 2].getLast?).getD 0 = 2 ∧
    calculateEMA [1, 2] 2 = 5 / 3 ∧
    (5 / 3 : ℚ) ≠ 2 := by
  decide

/-- C7 amended: calculateEMA returns the last element unchanged whenever the
series is non-empty and strictly shorter than the period. -/
theorem C7_ema_short (prices : List ℚ) (period : ℕ) (h : prices ≠ [])
    (hlen : prices.length < period) :
    calculateEMA prices period = prices.getLast h := by
  have h0 : ¬ prices.length = 0 := by simpa using h
  unfold calculateEMA
  rw [if_neg h0, if_pos hlen, List.getLast?_eq_getLast prices h, Option.getD_some]

/-- C7 witness: the amended statement at the concrete series [3, 7] with
period 3. -/
theorem C7_ema_short_witness : calculateEMA [3, 7] 3 = 7 := by
  have h := C7_ema_short [3, 7] 3 (by decide) (by decide)
  simpa using h

/-- C4: the consensus counts BUY/SELL/HOLD over the timeframes that carry a
signal (missing entries are dropped from the tally and the denominator); a
category strictly ahead of both others wins with strength
round(winningCount/totalSignals·100), and otherwise (tie or all-HOLD) the
decision is HOLD with the HOLD count's share as strength. -/
theorem C4_consensus (timeframeSignals : List (Option TradeSignal)) :
    let signals := timeframeSignals.filterMap id
    let buyCount := (signals.filter (fun s => decide (s = TradeSignal.BUY))).length
    let sellCount := (signals.filter (fun s => decide (s = TradeSignal.SELL))).length
    let holdCount := (signals.filter (fun s => decide (s = TradeSignal.HOLD))).length
    signals ≠ [] →
    ((buyCount > sellCount ∧ buyCount > holdCount →
        getOverallDecision timeframeSignals =
          ⟨TradeSignal.BUY, round ((buyCount : ℚ) / signals.length * 100),
            buyCount, sellCount, holdCount⟩) ∧
     (sellCount > buyCount ∧ sellCount > holdCount →
        getOverallDecision timeframeSignals =
          ⟨TradeSignal.SELL, round ((sellCount : ℚ) / signals.length * 100),
            buyCount, sellCount, holdCount⟩) ∧
     (¬ (buyCount > sellCount ∧ buyCount > holdCount) →
      ¬ (sellCount > buyCount ∧ sellCount > holdCount) →
        getOverallDecision timeframeSignals =
          ⟨TradeSignal.HOLD, round ((holdCount : ℚ) / signals.length * 100),
            buyCount, sellCount, holdCount⟩)) := by
  intro signals buyCount sellCount holdCount hne
  have hlen : ¬ signals.length = 0 := by
    simpa [List.length_eq_zero] using hne
  refine ⟨fun h => ?_, fun h => ?_, fun h1 h2 => ?_⟩ <;>
    simp only [getOverallDecision]
  · rw [if_neg hlen, if_pos h]
  · have hnb : ¬ (buyCount > sellCount ∧ buyCount > holdCount) := by omega
    rw [if_neg hlen, if_neg hnb, if_pos h]
  · rw [if_neg hlen, if_neg h1, if_neg h2]

set_option maxRecDepth 10000 in
unseal Rat.add Rat.mul Rat.inv Rat.sub in
/-- C4 witness: the consensus of the signals BUY, BUY, SELL, HOLD is BUY
with strength 50 and counts 2/1/1. -/
theorem C4_consensus_witness :
    getOverallDecision
        [some TradeSignal.BUY, some TradeSignal.BUY, some TradeSignal.SELL,
          some TradeSignal.HOLD] =
      ⟨TradeSignal.BUY, 50, 2, 1, 1⟩ := by
  have h := C4_consensus
    [some TradeSignal.BUY, some TradeSignal.BUY, some TradeSignal.SELL, some TradeSignal.HOLD]
    (by decide)
  exact (h.1 (by decide)).trans (by decide)

/-- C5: the series enricher maps each record in place (same length and
order); a record with a usable open price is returned unchanged, a record
with a missing or unusable open gets the most recent stored price for its
symbol (through the injected lookup) as open, or its own current price when
the lookup finds nothing; no field other than open is touched. -/
theorem C5_enricher (getLatest : String → Option InsertMarketData)
    (batch : List InsertMarketData) :
    (enrichMarketDataWithOpen getLatest batch).length = batch.length ∧
    ∀ i : ℕ,
      (enrichMarketDataWithOpen getLatest batch)[i]? =
        (batch[i]?).map fun data =>
          if unusableOpen data.«open» then
            { data with
                «open» := some ((getPreviousClosePrice getLatest data.symbol).getD data.price) }
          else data := by
  constructor
  · simp [enrichMarketDataWithOpen]
  · intro i
    simp only [enrichMarketDataWithOpen, List.getElem?_map]
    cases hbi : batch[i]? with
    | none => rfl
    | some data =>
      simp only [Option.map_some']
      by_cases h : unusableOpen data.«open»
      · rw [if_pos h, if_pos h]
        cases hpc : getPreviousClosePrice getLatest data.symbol <;> simp [hpc]
      · rw [if_neg h, if_neg h]

/-- The gain bootstrap fold never goes below its starting value. -/
lemma foldl_gain_nonneg (l : List ℚ) (a : ℚ) (ha : 0 ≤ a) :
    0 ≤ l.foldl (fun a c => if 0 < c then a + c else a) a := by
  induction l generalizing a with
  | nil => exact ha
  | cons c t ih =>
    simp only [List.foldl_cons]
    apply ih
    split_ifs with hc
    · linarith
    · exact ha

/-- The loss bootstrap fold never goes below its starting value. -/
lemma foldl_loss_nonneg (l : List ℚ) (a : ℚ) (ha : 0 ≤ a) :
    0 ≤ l.foldl (fun a c => if 0 < c then a else a - c) a := by
  induction l generalizing a with
  | nil => exact ha
  | cons c t ih =>
    simp only [List.foldl_cons]
    apply ih
    split_ifs with hc
    · exact ha
    · push_neg at hc
      linarith

/-- One Wilder smoothing step keeps both averages non-negative (for a
period of at least 1). -/
lemma rsiStep_nonneg (period : ℕ) (hp : 1 ≤ period) (gl : ℚ × ℚ) (c : ℚ)
    (hg : 0 ≤ gl.1) (hl : 0 ≤ gl.2) :
    0 ≤ (rsiStep period gl c).1 ∧ 0 ≤ (rsiStep period gl c).2 := by
  have hpq : (0 : ℚ) ≤ (period : ℚ) - 1 := by
    have h1 : (1 : ℚ) ≤ (period : ℚ) := by exact_mod_cast hp
    linarith
  have hper : (0 : ℚ) ≤ (period : ℚ) := by positivity
  rw [rsiStep]
  split_ifs with hc
  · exact ⟨div_nonneg (by nlinarith) hper, div_nonneg (by nlinarith) hper⟩
  · push_neg at hc
    exact ⟨div_nonneg (by nlinarith) hper, div_nonneg (by nlinarith) hper⟩

/-- The whole Wilder smoothing fold keeps both averages non-negative. -/
lemma foldl_rsiStep_nonneg (period : ℕ) (hp : 1 ≤ period) (l : List ℚ) (gl : ℚ × ℚ)
    (hg : 0 ≤ gl.1) (hl : 0 ≤ gl.2) :
    0 ≤ (l.foldl (rsiStep period) gl).1 ∧ 0 ≤ (l.foldl (rsiStep period) gl).2 := by
  induction l generalizing gl with
  | nil => exact ⟨hg, hl⟩
  | cons c t ih =>
    simp only [List.foldl_cons]
    obtain ⟨h1, h2⟩ := rsiStep_nonneg period hp gl c hg hl
    exact ih (rsiStep period gl c) h1 h2

/-- The smoothed average gain and average loss are always non-negative. -/
lemma rsiAverages_nonneg (prices : List ℚ) (period : ℕ) (hp : 1 ≤ period) :
    0 ≤ (rsiAverages prices period).1 ∧ 0 ≤ (rsiAverages prices period).2 := by
  have hper : (0 : ℚ) ≤ (period : ℚ) := by positivity
  refine foldl_rsiStep_nonneg period hp _ _ ?_ ?_
  · exact div_nonneg (foldl_gain_nonneg _ 0 le_rfl) hper
  · exact div_nonneg (foldl_loss_nonneg _ 0 le_rfl) hper

/-- C6: calculateRSI with period 14 always lies in [0, 100]; it is exactly
50 whenever the series has fewer than 15 samples, and exactly 100 whenever
the series is long enough and the smoothed average loss is exactly 0. -/
theorem C6_rsi_range (prices : List ℚ) :
    (0 ≤ calculateRSI prices 14 ∧ calculateRSI prices 14 ≤ 100) ∧
    (prices.length < 15 → calculateRSI prices 14 = 50) ∧
    (15 ≤ prices.length → (rsiAverages prices 14).2 = 0 → calculateRSI prices 14 = 100) := by
  refine ⟨?_, fun h => ?_, fun hlen hl0 => ?_⟩
  · simp only [calculateRSI]
    split_ifs with h1 h2
    · norm_num
    · norm_num
    · obtain ⟨hg, hl⟩ := rsiAverages_nonneg prices 14 (by norm_num)
      have hlpos : 0 < (rsiAverages prices 14).2 := lt_of_le_of_ne hl (Ne.symm h2)
      have hrs : 0 ≤ (rsiAverages prices 14).1 / (rsiAverages prices 14).2 :=
        div_nonneg hg hl
      have hq1 : 0 < 100 / (1 + (rsiAverages prices 14).1 / (rsiAverages prices 14).2) := by
        positivity
      have hq2 : 100 / (1 + (rsiAverages prices 14).1 / (rsiAverages prices 14).2) ≤ 100 :=
        div_le_self (by norm_num) (by linarith)
      constructor <;> linarith
  · simp only [calculateRSI]
    rw [if_pos (by omega : prices.length < 14 + 1)]
  · simp only [calculateRSI]
    rw [if_neg (by omega : ¬ prices.length < 14 + 1), if_pos hl0]

set_option maxRecDepth 10000 in
unseal Rat.add Rat.mul Rat.inv Rat.sub in
/-- C6 witness: a three-sample series yields exactly 50, and a strictly
increasing fifteen-sample series has smoothed average loss 0 and yields
exactly 100. -/
theorem C6_rsi_range_witness :
    calculateRSI [1, 2, 3] 14 = 50 ∧
    calculateRSI [1, 2, 3, 4, 5, 6, 7, 8, 9, 10, 11, 12, 13, 14, 15] 14 = 100 :=
  ⟨(C6_rsi_range [1, 2, 3]).2.1 (by decide),
   (C6_rsi_range [1, 2, 3, 4, 5, 6, 7, 8, 9, 10, 11, 12, 13, 14, 15]).2.2 (by decide)
     (by decide)⟩

/-- Comparing the standard deviation with a positive rational bound is the
same as comparing the mean squared deviation with the bound's square. -/
lemma calculateStandardDeviation_lt_iff (values : List ℚ) (c : ℚ) (hc : 0 < c) :
    calculateStandardDeviation values < (c : ℝ) ↔
      calculateStandardDeviationSq values < c ^ 2 := by
  rw [calculateStandardDeviation, Real.sqrt_lt' (by exact_mod_cast hc)]
  constructor
  · intro h
    exact_mod_cast h
  · intro h
    exact_mod_cast h

/-- C8 counterexample: the two-element series [−2, −1] is strictly
increasing, yet the short-series band (last price ±2%) inverts for a
negative last price: the upper band lies below the middle one. -/
theorem C8_counterexample :
    List.Chain' (fun a b : ℚ => a < b) [-2, -1] ∧
    (calculateBollingerBands [-2, -1] 20 2).upper <
      (calculateBollingerBands [-2, -1] 20 2).middle := by
  constructor
  · norm_num [List.chain'_cons]
  · simp only [calculateBollingerBands]
    norm_num [List.getLast?]

/-- C8 amended: for every non-empty strictly increasing series of strictly
positive prices the Bollinger bands are strictly ordered, in the long branch
(at least 20 samples: SMA ± 2 population standard deviations) because a
strictly increasing window has positive variance, and in the short branch
(last price ±2%) because the last price is positive. -/
theorem C8_bollinger_ordered (prices : List ℚ) (hne : prices ≠ [])
    (hmono : List.Chain' (fun a b : ℚ => a < b) prices)
    (hpos : ∀ p ∈ prices, 0 < p) :
    (calculateBollingerBands prices 20 2).lower < (calculateBollingerBands prices 20 2).middle ∧
    (calculateBollingerBands prices 20 2).middle < (calculateBollingerBands prices 20 2).upper := by
  simp only [calculateBollingerBands]
  split_ifs with hlen
  · have hlast : (prices.getLast?).getD 0 = prices.getLast hne := by
      rw [List.getLast?_eq_getLast prices hne, Option.getD_some]
    have hLpos : 0 < prices.getLast hne := hpos _ (List.getLast_mem hne)
    rw [hlast]
    dsimp only
    constructor
    · exact_mod_cast (by nlinarith : prices.getLast hne * (98 / 100) < prices.getLast hne)
    · exact_mod_cast (by nlinarith : prices.getLast hne < prices.getLast hne * (102 / 100))
  · push_neg at hlen
    set w := prices.drop (prices.length - 20) with hw
    have hwlen : w.length = 20 := by
      rw [hw, List.length_drop]
      omega
    have hwpair : List.Pairwise (fun a b : ℚ => a < b) w :=
      List.Pairwise.sublist (List.drop_sublist _ _) (List.chain'_iff_pairwise.mp hmono)
    have hwne : w ≠ [] := by
      intro h
      rw [h] at hwlen
      exact absurd hwlen (by norm_num)
    obtain ⟨a, w', hcw⟩ := List.exists_cons_of_ne_nil hwne
    have hw'ne : w' ≠ [] := by
      intro h
      rw [hcw, h] at hwlen
      exact absurd hwlen (by norm_num)
    obtain ⟨b, t, hcw'⟩ := List.exists_cons_of_ne_nil hw'ne
    have hwab : w = a :: b :: t := by rw [hcw, hcw']
    have hab : a < b := by
      rw [hwab] at hwpair
      exact (List.pairwise_cons.mp hwpair).1 b (by simp)
    set m := w.sum / ((20 : ℕ) : ℚ) with hm
    have hvar : 0 < ((w.map (fun p => (p - m) ^ 2)).sum) / ((20 : ℕ) : ℚ) := by
      apply div_pos ?_ (by norm_num)
      have h2 : 0 ≤ ((t.map (fun p => (p - m) ^ 2)).sum) := by
        apply List.sum_nonneg
        intro x hx
        rcases List.mem_map.mp hx with ⟨p, _, rfl⟩
        exact sq_nonneg _
      have h1 : 0 < (a - m) ^ 2 + (b - m) ^ 2 := by
        by_cases ham : a = m
        · have hbm : b - m ≠ 0 := sub_ne_zero.mpr (by rw [← ham]; exact ne_of_gt hab)
          have := lt_of_le_of_ne (sq_nonneg (b - m)) (Ne.symm (pow_ne_zero 2 hbm))
          nlinarith [sq_nonneg (a - m)]
        · have haa : a - m ≠ 0 := sub_ne_zero.mpr ham
          have := lt_of_le_of_ne (sq_nonneg (a - m)) (Ne.symm (pow_ne_zero 2 haa))
          nlinarith [sq_nonneg (b - m)]
      rw [hwab]
      simp only [List.map_cons, List.sum_cons]
      linarith
    have hsqrt :
        0 < Real.sqrt ((((w.map (fun p => (p - m) ^ 2)).sum) / ((20 : ℕ) : ℚ) : ℚ) : ℝ) :=
      Real.sqrt_pos.mpr (by exact_mod_cast hvar)
    have hterm :
        0 < Real.sqrt ((((w.map (fun p => (p - m) ^ 2)).sum) / ((20 : ℕ) : ℚ) : ℚ) : ℝ) *
          ((2 : ℚ) : ℝ) :=
      mul_pos hsqrt (by norm_num)
    constructor <;> linarith

/-- C8 witness: the amended ordering at the concrete short strictly
increasing positive series [1, 2]. -/
theorem C8_bollinger_ordered_witness :
    (calculateBollingerBands [1, 2] 20 2).lower < (calculateBollingerBands [1, 2] 20 2).middle ∧
    (calculateBollingerBands [1, 2] 20 2).middle < (calculateBollingerBands [1, 2] 20 2).upper :=
  C8_bollinger_ordered [1, 2] (by decide) (by norm_num [List.chain'_cons]) (by decide)

/-- The sufficiency gate passes exactly when all five conditions of the
source hold, with the standard-deviation condition stated on the real-valued
standard deviation itself. -/
lemma passesGate_iff (sd : List MarketData) :
    passesGate sd = true ↔
      (50 ≤ sd.length ∧ 50 ≤ (validPricesOf sd).length ∧ 1 ≤ priceRangeOf sd ∧
       ¬ calculateStandardDeviation (validPricesOf sd) < ((1 / 1000 : ℚ) : ℝ) ∧
       10 ≤ distinctTimestampCount sd) := by
  have hsd : (calculateStandardDeviation (validPricesOf sd) < ((1 / 1000 : ℚ) : ℝ)) ↔
      calculateStandardDeviationSq (validPricesOf sd) < 1 / 1000000 := by
    rw [calculateStandardDeviation_lt_iff _ _ (by norm_num)]
    norm_num
  rw [passesGate, hsd]
  split_ifs with h1 h2 h3 h4
  · simp only [false_iff]
    rintro ⟨ha, -⟩
    omega
  · simp only [false_iff]
    rintro ⟨-, hb, -⟩
    omega
  · simp only [false_iff]
    rintro ⟨-, -, hc, hd, -⟩
    rcases h3 with h3 | h3
    · linarith
    · exact hd h3
  · simp only [false_iff]
    rintro ⟨-, -, -, -, he⟩
    omega
  · push_neg at h3
    simp only [true_iff]
    exact ⟨by omega, by omega, by linarith [h3.1], not_lt.mpr (le_of_not_lt (not_lt.mpr h3.2)), by omega⟩

/-- C2 amended: for a symbol among the three hardcoded ones, analyzeTechnicals
produces an indicator set if and only if the symbol's filtered series
satisfies all five sufficiency conditions: at least 50 records, at least 50
strictly positive prices, price range at least 1, standard deviation not
below 0.001, and at least 10 distinct timestamps. -/
theorem C2_gate (marketData : List MarketData) (symbol : String)
    (hsym : symbol ∈ marketSymbols) :
    ((∃ td, (symbol, td) ∈ analyzeTechnicals marketData) ↔
      (50 ≤ (marketData.filter (fun d => decide (d.symbol = symbol))).length ∧
       50 ≤ (validPricesOf (marketData.filter (fun d => decide (d.symbol = symbol)))).length ∧
       1 ≤ priceRangeOf (marketData.filter (fun d => decide (d.symbol = symbol))) ∧
       ¬ calculateStandardDeviation
           (validPricesOf (marketData.filter (fun d => decide (d.symbol = symbol)))) <
           ((1 / 1000 : ℚ) : ℝ) ∧
       10 ≤ distinctTimestampCount (marketData.filter (fun d => decide (d.symbol = symbol))))) := by
  rw [← passesGate_iff]
  constructor
  · rintro ⟨td, hmem⟩
    simp only [analyzeTechnicals, List.mem_filterMap] at hmem
    obtain ⟨s, hs, hfs⟩ := hmem
    by_cases hg : passesGate (marketData.filter (fun d => decide (d.symbol = s)))
    · rw [if_pos hg] at hfs
      have hss : s = symbol := congrArg Prod.fst (Option.some.inj hfs)
      rwa [hss] at hg
    · rw [if_neg hg] at hfs
      cases hfs
  · intro hg
    refine ⟨computeIndicators (marketData.filter (fun d => decide (d.symbol = symbol))), ?_⟩
    simp only [analyzeTechnicals, List.mem_filterMap]
    exact ⟨symbol, hsym, by rw [if_pos hg]⟩

/-- Fifty records for the symbol TCS with strictly increasing prices
100..149 and fifty distinct timestamps: a series that passes every gate
condition. -/
def tcsData : List MarketData :=
  (List.range 50).map
    (fun (i : ℕ) => ⟨"TCS", 100 + (i : ℚ), 1000, 101 + (i : ℚ), 99 + (i : ℚ), i⟩)

set_option maxRecDepth 100000 in
unseal Rat.add Rat.mul Rat.inv Rat.sub in
/-- C2 counterexample: the TCS series passes all five sufficiency conditions,
yet analyzeTechnicals computes no indicator set for TCS, because the loop
only ever visits the hardcoded symbols NIFTY, BANKNIFTY and SENSEX. -/
theorem C2_counterexample :
    (¬ ∃ td, ("TCS", td) ∈ analyzeTechnicals tcsData) ∧
    50 ≤ (tcsData.filter (fun d => decide (d.symbol = "TCS"))).length ∧
    50 ≤ (validPricesOf (tcsData.filter (fun d => decide (d.symbol = "TCS")))).length ∧
    1 ≤ priceRangeOf (tcsData.filter (fun d => decide (d.symbol = "TCS"))) ∧
    ¬ calculateStandardDeviation
        (validPricesOf (tcsData.filter (fun d => decide (d.symbol = "TCS")))) <
        ((1 / 1000 : ℚ) : ℝ) ∧
    10 ≤ distinctTimestampCount (tcsData.filter (fun d => decide (d.symbol = "TCS"))) := by
  refine ⟨?_, by decide, by decide, by decide, ?_, by decide⟩
  · rintro ⟨td, hmem⟩
    simp only [analyzeTechnicals, List.mem_filterMap, marketSymbols, List.mem_cons,
      List.not_mem_nil, or_false] at hmem
    obtain ⟨s, hs, hfs⟩ := hmem
    rcases hs with rfl | rfl | rfl <;> split_ifs at hfs <;> simp_all
  · rw [calculateStandardDeviation_lt_iff _ _ (by norm_num)]
    decide

/-- Sixty records for NIFTY, all with the constant price 100. -/
def constNifty60 : List MarketData :=
  (List.range 60).map (fun i => ⟨"NIFTY", 100, 1000, 101, 99, i⟩)

set_option maxRecDepth 100000 in
unseal Rat.add Rat.mul Rat.inv Rat.sub in
/-- C2 witness: a 60-sample constant-price series is rejected by the gate
(price range 0) and no indicator set is computed for NIFTY. -/
theorem C2_gate_witness : ¬ ∃ td, ("NIFTY", td) ∈ analyzeTechnicals constNifty60 := by
  intro h
  have hc := (C2_gate constNifty60 "NIFTY" (by decide)).mp h
  exact absurd hc.2.2.1 (by decide)

/-- The record list a source's fetch oracle yields (empty for a thrown
error). -/
def fetchedRecords (s : MarketDataService.DataSource) :
    List MarketDataService.InsertMarketData :=
  match s.fetch with
  | Except.ok rawData => rawData
  | Except.error _ => []

/-- C1 amended: getMarketData walks its sources in order; when some source is
the first enabled one whose fetch succeeds with at least one record, exactly
the enabled sources up to and including it are invoked and the result is
that source's record list passed through the open-price enricher (never a
merge of several sources); when no source wins, every enabled source is
invoked and the result is the empty list, with every fetch error swallowed. -/
theorem C1_failover (getLatest : String → Option InsertMarketData)
    (sources : List DataSource) :
    (∀ s, sources.find? isWinningSource = some s →
        getMarketData getLatest sources =
          enrichMarketDataWithOpen getLatest (fetchedRecords s) ∧
        getMarketDataTried getLatest sources =
          ((sources.takeWhile (fun t => !isWinningSource t)).filter
              (fun t => t.enabled)).map (fun t => t.name) ++ [s.name]) ∧
    (sources.find? isWinningSource = none →
        getMarketData getLatest sources = [] ∧
        getMarketDataTried getLatest sources =
          (sources.filter (fun t => t.enabled)).map (fun t => t.name)) := by
  induction sources with
  | nil =>
    constructor
    · intro s hs
      cases hs
    · intro _
      exact ⟨rfl, rfl⟩
  | cons src rest ih =>
    by_cases hw : isWinningSource src = true
    · have hwand := hw
      rw [isWinningSource, Bool.and_eq_true] at hwand
      have hen : src.enabled = true := hwand.1
      obtain ⟨raw, hraw, hlen⟩ : ∃ raw, src.fetch = Except.ok raw ∧ raw.length > 0 := by
        cases hfetch : src.fetch with
        | ok rawData =>
          rw [hfetch] at hwand
          refine ⟨rawData, rfl, ?_⟩
          simpa using hwand.2
        | error e =>
          rw [hfetch] at hwand
          simp at hwand
      have hfind : (src :: rest).find? isWinningSource = some src :=
        List.find?_cons_of_pos _ hw
      have hrun : getMarketDataRun getLatest (src :: rest) =
          ([src.name], enrichMarketDataWithOpen getLatest raw) := by
        simp only [getMarketDataRun, hraw]
        rw [if_pos hen, if_pos hlen]
      constructor
      · intro s hs
        rw [hfind] at hs
        injection hs with hs
        subst hs
        constructor
        · show (getMarketDataRun getLatest (src :: rest)).2 = _
          rw [hrun]
          simp [fetchedRecords, hraw]
        · show (getMarketDataRun getLatest (src :: rest)).1 = _
          rw [hrun, List.takeWhile_cons_of_neg (by simp [hw])]
          simp
      · intro hnone
        rw [hfind] at hnone
        cases hnone
    · have hwf : isWinningSource src = false := by
        revert hw
        cases isWinningSource src <;> simp
      have hfind : (src :: rest).find? isWinningSource = rest.find? isWinningSource :=
        List.find?_cons_of_neg _ hw
      have htake : (src :: rest).takeWhile (fun t => !isWinningSource t) =
          src :: rest.takeWhile (fun t => !isWinningSource t) :=
        List.takeWhile_cons_of_pos (by simp [hwf])
      have hstep : getMarketDataRun getLatest (src :: rest) =
          (if src.enabled then src.name :: (getMarketDataRun getLatest rest).1
           else (getMarketDataRun getLatest rest).1,
           (getMarketDataRun getLatest rest).2) := by
        cases hen : src.enabled with
        | false => simp [getMarketDataRun, hen]
        | true =>
          cases hfetch : src.fetch with
          | error e => simp [getMarketDataRun, hen, hfetch]
          | ok raw =>
            have hlen0 : ¬ raw.length > 0 := by
              intro hl
              apply hw
              rw [isWinningSource, hen, hfetch]
              simpa using hl
            simp [getMarketDataRun, hen, hfetch, hlen0]
      constructor
      · intro s hs
        rw [hfind] at hs
        obtain ⟨hres, htried⟩ := ih.1 s hs
        unfold getMarketDataTried at htried
        unfold getMarketData at hres
        constructor
        · show (getMarketDataRun getLatest (src :: rest)).2 = _
          rw [hstep]
          exact hres
        · show (getMarketDataRun getLatest (src :: rest)).1 = _
          rw [hstep]
          dsimp only
          rw [htake]
          cases hen : src.enabled with
          | true =>
            rw [if_pos rfl, List.filter_cons_of_pos hen, List.map_cons, htried]
            rfl
          | false =>
            rw [if_neg (by simp), List.filter_cons_of_neg (by simp [hen]), htried]
      · intro hnone
        rw [hfind] at hnone
        obtain ⟨hres, htried⟩ := ih.2 hnone
        unfold getMarketDataTried at htried
        unfold getMarketData at hres
        constructor
        · show (getMarketDataRun getLatest (src :: rest)).2 = []
          rw [hstep]
          exact hres
        · show (getMarketDataRun getLatest (src :: rest)).1 = _
          rw [hstep]
          dsimp only
          cases hen : src.enabled with
          | true =>
            rw [if_pos rfl, List.filter_cons_of_pos hen, List.map_cons, htried]
          | false =>
            rw [if_neg (by simp), List.filter_cons_of_neg (by simp [hen]), htried]

/-- A fetched quote record whose open field carries the unusable string
"0". -/
def cexRecord : InsertMarketData :=
  ⟨"NIFTY", "105", "0", "0", "110", "100", 0, some "0", some 1⟩

/-- The stored latest record for NIFTY, with price "99". -/
def cexStored : InsertMarketData :=
  ⟨"NIFTY", "99", "0", "0", "0", "0", 0, none, none⟩

/-- A storage oracle holding only the NIFTY record above. -/
def cexStorage : String → Option InsertMarketData :=
  fun s => if s = "NIFTY" then some cexStored else none

/-- A first source that throws. -/
def cexSourceA : DataSource := ⟨"Angel One", true, Except.error "not authenticated"⟩

/-- A second source that yields one record. -/
def cexSourceB : DataSource := ⟨"Yahoo Finance", true, Except.ok [cexRecord]⟩

/-- The two-source configuration: A fails, B yields one record. -/
def cexSources : List DataSource := [cexSourceA, cexSourceB]

/-- C1 counterexample: B is the first source yielding at least one record,
but getMarketData does not return B's record list verbatim — the enricher
replaces the unusable open "0" with the stored previous close "99" before
the list is returned. -/
theorem C1_counterexample :
    cexSources.find? isWinningSource = some cexSourceB ∧
    getMarketData cexStorage cexSources ≠ [cexRecord] ∧
    getMarketData cexStorage cexSources = [{ cexRecord with «open» := some "99" }] := by
  refine ⟨rfl, by decide, by decide⟩

/-- C1 witness: the amended failover at the concrete two-source
configuration — both sources are tried, and the result is B's records run
through the enricher. -/
theorem C1_failover_witness :
    getMarketData cexStorage cexSources =
      enrichMarketDataWithOpen cexStorage (fetchedRecords cexSourceB) ∧
    getMarketDataTried cexStorage cexSources = ["Angel One", "Yahoo Finance"] := by
  have h := (C1_failover cexStorage cexSources).1 cexSourceB rfl
  refine ⟨h.1, ?_⟩
  rw [h.2]
  rfl

end TraDora
